import Mathlib

/-!
Shallow embedding of the `unbytes` crate: a forward-only cursor (`Reader`)
over an immutable byte buffer, its bounds-checked read primitives
(`src/lib.rs`), the integer convenience methods (`src/ints.rs`) and the
`Decode`/`DecodeEndian` layer (`src/decode.rs`).

Modelling conventions:
- `Bytes` contents are modelled as `List Nat` (each element one byte).
- `usize` values are natural numbers; `usize` addition in the source
  (`self.index.add(amt)` in `Reader::increment`) is non-saturating, so it is
  modelled as wrapping modulo `2^64` (the release-profile overflow semantics
  of Rust on a 64-bit target; debug profiles panic at the same inputs).
  `saturating_sub` is exactly truncated `Nat` subtraction.
- Methods taking `&mut self` are state-passing: they return the result paired
  with the updated `Reader`; an early `return Err(..)` leaves the state as it
  was on entry.
- A slice-indexing expression that can be out of bounds (and would panic in
  Rust) is modelled with `Option`: `none` is a panic.
-/

namespace Unbytes

/-- Size of the `usize` value space on the modelled (64-bit) target. -/
def USIZE : Nat := 2 ^ 64

/-- Embeds `struct EndOfInput` (`src/lib.rs`), the sole, unit-like error. -/
inductive EndOfInput where
  | endOfInput
  deriving DecidableEq, Repr

/-- Embeds `struct Reader { index: usize, inner: Bytes }` (`src/lib.rs`). -/
structure Reader where
  index : Nat
  inner : List Nat
  deriving DecidableEq, Repr

namespace Reader

/-- Embeds `Reader::new`: index 0 over the given bytes. -/
def new (bytes : List Nat) : Reader :=
  { index := 0, inner := bytes }

/-- Embeds `Reader::increment`:
`self.index = self.index.add(amt).min(self.inner.len())`.
The `usize` addition wraps modulo `2^64` before the `min` clamp. -/
def increment (r : Reader) (amt : Nat) : Reader :=
  { r with index := min ((r.index + amt) % USIZE) r.inner.length }

/-- Embeds `Reader::remaining`: `self.inner.len().saturating_sub(self.index)`. -/
def remaining (r : Reader) : Nat :=
  r.inner.length - r.index

/-- Embeds `Reader::has_remaining`: `self.remaining() >= len`. -/
def has_remaining (r : Reader) (len : Nat) : Bool :=
  decide (r.remaining ≥ len)

/-- Embeds `Reader::consumed`: returns `self.index`. -/
def consumed (r : Reader) : Nat :=
  r.index

/-- Embeds `Reader::skip`: `self.increment(amt)`. -/
def skip (r : Reader) (amt : Nat) : Reader :=
  r.increment amt

/-- Embeds `Reader::peek`:
`if !self.has_remaining(1) { return false; } self.inner[self.index + 1] == val`.
The indexing at `self.index + 1` panics when out of bounds; `none` models
that panic. -/
def peek (r : Reader) (val : Nat) : Option Bool :=
  if !(r.has_remaining 1) then some false
  else (r.inner.get? (r.index + 1)).map (fun b => decide (b = val))

/-- Result of `Reader::read_to_end`: the returned `Bytes` handle, together
with whether it retains (is a view into) the original storage of the reader.
`Bytes::from_static(EMPTY_SLICE)` does not retain it; `self.inner.slice(..)`
does. -/
structure OwnedBytes where
  data : List Nat
  retainsSource : Bool
  deriving DecidableEq, Repr

/-- Embeds `Reader::read_to_end` (consumes the reader):
if `self.index == self.inner.len()` return `Bytes::from_static(EMPTY_SLICE)`,
else return `self.inner.slice(self.index..)`. -/
def read_to_end (r : Reader) : OwnedBytes :=
  if r.index = r.inner.length then { data := [], retainsSource := false }
  else { data := r.inner.drop r.index, retainsSource := true }

/-- Embeds `Reader::read_byte`: bounds check, read `self.inner[self.index]`
(in bounds after the check), then `self.increment(1)`. -/
def read_byte (r : Reader) : Except EndOfInput Nat × Reader :=
  if !(r.has_remaining 1) then (.error .endOfInput, r)
  else (.ok (r.inner.getD r.index 0), r.increment 1)

/-- Embeds `Reader::read_bytes`: bounds check, `self.increment(len)`, return
`self.inner.slice(old_idx..old_idx+len)` (the `len` bytes from `old_idx`). -/
def read_bytes (r : Reader) (len : Nat) : Except EndOfInput (List Nat) × Reader :=
  if !(r.has_remaining len) then (.error .endOfInput, r)
  else
    let old_idx := r.index
    (.ok ((r.inner.drop old_idx).take len), r.increment len)

/-- Embeds `Reader::read_slice`: same bounds check and advance as
`read_bytes`, returning `&self.inner[old_idx..old_idx+len]`. -/
def read_slice (r : Reader) (len : Nat) : Except EndOfInput (List Nat) × Reader :=
  if !(r.has_remaining len) then (.error .endOfInput, r)
  else
    let old_idx := r.index
    (.ok ((r.inner.drop old_idx).take len), r.increment len)

/-- Embeds `Reader::read_array::<N>`: `read_slice(N)?` then
`copy_from_slice` of the whole slice into a fresh `[0u8; N]` (the slice is
always of length `N` on success, so the copy is the slice itself). -/
def read_array (r : Reader) (n : Nat) : Except EndOfInput (List Nat) × Reader :=
  match r.read_slice n with
  | (.error e, r') => (.error e, r')
  | (.ok slice, r') => (.ok slice, r')

/-- Embeds `Reader::subreader`:
`if len == 0 { return Err(EndOfInput); } Ok(Self::new(self.read_bytes(len)?))`. -/
def subreader (r : Reader) (len : Nat) : Except EndOfInput Reader × Reader :=
  if len = 0 then (.error .endOfInput, r)
  else
    match r.read_bytes len with
    | (.error e, r') => (.error e, r')
    | (.ok b, r') => (.ok (Reader.new b), r')

/-- Embeds `impl std::io::Read for Reader` (`src/lib.rs` lines 121-128):
`amt = remaining().min(buf.len())`; if `amt == 0` return `Ok(0)`; otherwise
`buf[..amt].copy_from_slice(self.read_slice(amt).unwrap())` and return
`Ok(0)`. Returns (result value of the `Ok`, updated reader, updated buffer);
the source never constructs an `io::Error`. The `.unwrap()` branch is
unreachable because `amt <= remaining()`. -/
def io_read (r : Reader) (buf : List Nat) : Nat × Reader × List Nat :=
  let amt := min r.remaining buf.length
  if amt = 0 then (0, r, buf)
  else
    match r.read_slice amt with
    | (.ok slice, r') => (0, r', slice ++ buf.drop amt)
    | (.error _, r') => (0, r', buf)

/-- Well-formedness of a `Reader` as it exists in Rust: the position never
exceeds the buffer length (established by `new` and preserved by the `min`
clamp in `increment`), and the buffer fits in memory (`len() <= usize::MAX`). -/
def WF (r : Reader) : Prop :=
  r.index ≤ r.inner.length ∧ r.inner.length < USIZE

instance (r : Reader) : Decidable r.WF := by
  unfold WF; infer_instance

end Reader

/-! Byte reassembly, embedding `<ty>::from_be_bytes` / `from_le_bytes` and
`transmute::<u8, i8>`. -/

/-- `uN::from_be_bytes`: big-endian reassembly of a byte array into the
unsigned value. -/
def natFromBeBytes (a : List Nat) : Nat :=
  a.foldl (fun acc b => acc * 256 + b) 0

/-- `uN::from_le_bytes`: little-endian reassembly. -/
def natFromLeBytes (a : List Nat) : Nat :=
  natFromBeBytes a.reverse

/-- Reinterpret a `w`-byte unsigned value as the twos-complement signed
value of the same bit pattern (`iN::from_be_bytes` after `natFromBeBytes`,
and `transmute::<u8, i8>` at `w = 1`). -/
def toSigned (w : Nat) (u : Nat) : Int :=
  if u < 2 ^ (8 * w - 1) then (u : Int) else (u : Int) - 2 ^ (8 * w)

/-- `iN::from_be_bytes` for a `w`-byte array. -/
def intFromBeBytes (w : Nat) (a : List Nat) : Int :=
  toSigned w (natFromBeBytes a)

namespace Reader

/-! Integer convenience methods, embedding `src/ints.rs`. All multi-byte
methods are `Ok($type::from_be_bytes(self.read_array::<$size>()?))`. -/

/-- Embeds `Reader::read_u8`: `self.read_byte()`. -/
def read_u8 (r : Reader) : Except EndOfInput Nat × Reader :=
  r.read_byte

/-- Embeds `Reader::read_i8`: `transmute::<u8, i8>(self.read_u8()?)`. -/
def read_i8 (r : Reader) : Except EndOfInput Int × Reader :=
  match r.read_u8 with
  | (.error e, r') => (.error e, r')
  | (.ok b, r') => (.ok (toSigned 1 b), r')

/-- Embeds `Reader::read_u16` (via `impl_reader_fn!(u16, 2, ..)`). -/
def read_u16 (r : Reader) : Except EndOfInput Nat × Reader :=
  match r.read_array 2 with
  | (.error e, r') => (.error e, r')
  | (.ok a, r') => (.ok (natFromBeBytes a), r')

/-- Embeds `Reader::read_u32` (via `impl_reader_fn!(u32, 4, ..)`). -/
def read_u32 (r : Reader) : Except EndOfInput Nat × Reader :=
  match r.read_array 4 with
  | (.error e, r') => (.error e, r')
  | (.ok a, r') => (.ok (natFromBeBytes a), r')

/-- Embeds `Reader::read_u64` (via `impl_reader_fn!(u64, 8, ..)`). -/
def read_u64 (r : Reader) : Except EndOfInput Nat × Reader :=
  match r.read_array 8 with
  | (.error e, r') => (.error e, r')
  | (.ok a, r') => (.ok (natFromBeBytes a), r')

/-- Embeds `Reader::read_u128` (via `impl_reader_fn!(u128, 16, ..)`). -/
def read_u128 (r : Reader) : Except EndOfInput Nat × Reader :=
  match r.read_array 16 with
  | (.error e, r') => (.error e, r')
  | (.ok a, r') => (.ok (natFromBeBytes a), r')

/-- Embeds `Reader::read_i16` (via `impl_reader_fn!(i16, 2, ..)`). -/
def read_i16 (r : Reader) : Except EndOfInput Int × Reader :=
  match r.read_array 2 with
  | (.error e, r') => (.error e, r')
  | (.ok a, r') => (.ok (intFromBeBytes 2 a), r')

/-- Embeds `Reader::read_i32` (via `impl_reader_fn!(i32, 4, ..)`). -/
def read_i32 (r : Reader) : Except EndOfInput Int × Reader :=
  match r.read_array 4 with
  | (.error e, r') => (.error e, r')
  | (.ok a, r') => (.ok (intFromBeBytes 4 a), r')

/-- Embeds `Reader::read_i64` (via `impl_reader_fn!(i64, 8, ..)`). -/
def read_i64 (r : Reader) : Except EndOfInput Int × Reader :=
  match r.read_array 8 with
  | (.error e, r') => (.error e, r')
  | (.ok a, r') => (.ok (intFromBeBytes 8 a), r')

/-- Embeds `Reader::read_i128` (via `impl_reader_fn!(i128, 16, ..)`). -/
def read_i128 (r : Reader) : Except EndOfInput Int × Reader :=
  match r.read_array 16 with
  | (.error e, r') => (.error e, r')
  | (.ok a, r') => (.ok (intFromBeBytes 16 a), r')

end Reader

/-! The `Decode` / `DecodeEndian` layer, embedding `src/decode.rs`.
Each implementation is a function of the reader obtained from `as_mut()`. -/

namespace Decode

/-- Embeds `impl Decode for u8`: `reader.as_mut().read_byte()`. -/
def decode_u8 (r : Reader) : Except EndOfInput Nat × Reader :=
  r.read_byte

/-- Embeds `impl Decode for i8`:
`transmute::<u8, i8>(reader.as_mut().read_byte()?)`. -/
def decode_i8 (r : Reader) : Except EndOfInput Int × Reader :=
  match r.read_byte with
  | (.error e, r') => (.error e, r')
  | (.ok b, r') => (.ok (toSigned 1 b), r')

/-- Embeds `<u16 as DecodeEndian>::decode_be` (`decode_endian_impl!(u16, 2)`):
`let array = read_array::<2>()?; Ok(u16::from_be_bytes(array))`. -/
def decode_be_u16 (r : Reader) : Except EndOfInput Nat × Reader :=
  match r.read_array 2 with
  | (.error e, r') => (.error e, r')
  | (.ok array, r') => (.ok (natFromBeBytes array), r')

/-- Embeds `<u32 as DecodeEndian>::decode_be` (`decode_endian_impl!(u32, 4)`). -/
def decode_be_u32 (r : Reader) : Except EndOfInput Nat × Reader :=
  match r.read_array 4 with
  | (.error e, r') => (.error e, r')
  | (.ok array, r') => (.ok (natFromBeBytes array), r')

/-- Embeds `<u64 as DecodeEndian>::decode_be` (`decode_endian_impl!(u64, 8)`). -/
def decode_be_u64 (r : Reader) : Except EndOfInput Nat × Reader :=
  match r.read_array 8 with
  | (.error e, r') => (.error e, r')
  | (.ok array, r') => (.ok (natFromBeBytes array), r')

/-- Embeds `<u128 as DecodeEndian>::decode_be` (`decode_endian_impl!(u128, 16)`). -/
def decode_be_u128 (r : Reader) : Except EndOfInput Nat × Reader :=
  match r.read_array 16 with
  | (.error e, r') => (.error e, r')
  | (.ok array, r') => (.ok (natFromBeBytes array), r')

/-- Embeds `<i16 as DecodeEndian>::decode_be` (`decode_endian_impl!(i16, 2)`). -/
def decode_be_i16 (r : Reader) : Except EndOfInput Int × Reader :=
  match r.read_array 2 with
  | (.error e, r') => (.error e, r')
  | (.ok array, r') => (.ok (intFromBeBytes 2 array), r')

/-- Embeds `<i32 as DecodeEndian>::decode_be` (`decode_endian_impl!(i32, 4)`). -/
def decode_be_i32 (r : Reader) : Except EndOfInput Int × Reader :=
  match r.read_array 4 with
  | (.error e, r') => (.error e, r')
  | (.ok array, r') => (.ok (intFromBeBytes 4 array), r')

/-- Embeds `<i64 as DecodeEndian>::decode_be` (`decode_endian_impl!(i64, 8)`). -/
def decode_be_i64 (r : Reader) : Except EndOfInput Int × Reader :=
  match r.read_array 8 with
  | (.error e, r') => (.error e, r')
  | (.ok array, r') => (.ok (intFromBeBytes 8 array), r')

/-- Embeds `<i128 as DecodeEndian>::decode_be` (`decode_endian_impl!(i128, 16)`). -/
def decode_be_i128 (r : Reader) : Except EndOfInput Int × Reader :=
  match r.read_array 16 with
  | (.error e, r') => (.error e, r')
  | (.ok array, r') => (.ok (intFromBeBytes 16 array), r')

end Decode

/-! Helper lemmas shared by the claim theorems. -/

namespace Reader

/-- When the clamped position stays within the buffer and the buffer fits in
`usize`, `increment` is plain addition. -/
theorem increment_eq_of_le (r : Reader) (amt : Nat)
    (h1 : r.index + amt ≤ r.inner.length) (h2 : r.inner.length < USIZE) :
    r.increment amt = ⟨r.index + amt, r.inner⟩ := by
  have hlt : r.index + amt < USIZE := lt_of_le_of_lt h1 h2
  unfold increment
  rw [Nat.mod_eq_of_lt hlt, min_eq_left h1]

/-- `read_array` returns exactly what `read_slice` returns: the
`copy_from_slice` copies the whole slice, which has length `n` on success. -/
theorem read_array_eq_read_slice (r : Reader) (n : Nat) :
    r.read_array n = r.read_slice n := by
  unfold read_array
  rcases h : r.read_slice n with ⟨e | s, r'⟩ <;> simp [h]

theorem has_remaining_true (r : Reader) (len : Nat) (h : len ≤ r.remaining) :
    r.has_remaining len = true := by
  simp [has_remaining]; exact h

theorem has_remaining_false (r : Reader) (len : Nat) (h : r.remaining < len) :
    r.has_remaining len = false := by
  simp [has_remaining]; omega

theorem take_one_drop (l : List Nat) (i : Nat) (h : i < l.length) :
    (l.drop i).take 1 = [l.getD i 0] := by
  simp [List.take_one, List.head?_drop, List.getElem?_eq_getElem h,
        List.getD_eq_getElem?_getD]

/-! Claim theorems. -/

/-- Claim C1: for every well-formed `Reader` and requested length `len`, each
bounds-checked read (`read_byte` in the case `len = 1`, `read_bytes len`,
`read_slice len`, `read_array len`) fully succeeds exactly when
`len ≤ remaining()`, advancing `consumed()` by exactly `len` and returning
exactly the bytes of the underlying source at `[position, position+len)` as
of the pre-call position — and otherwise fails with `EndOfInput` leaving
`consumed()` (hence also `remaining()`) unchanged. There are no partial
reads. -/
theorem bounds_checked_reads_all_or_nothing (r : Reader) (len : Nat) (hWF : r.WF) :
    (len ≤ r.remaining →
       r.read_bytes len = (.ok ((r.inner.drop r.consumed).take len), ⟨r.consumed + len, r.inner⟩) ∧
       r.read_slice len = (.ok ((r.inner.drop r.consumed).take len), ⟨r.consumed + len, r.inner⟩) ∧
       r.read_array len = (.ok ((r.inner.drop r.consumed).take len), ⟨r.consumed + len, r.inner⟩) ∧
       (len = 1 →
         r.read_byte = (.ok (r.inner.getD r.consumed 0), ⟨r.consumed + 1, r.inner⟩) ∧
         (r.inner.drop r.consumed).take 1 = [r.inner.getD r.consumed 0])) ∧
    (r.remaining < len →
       r.read_bytes len = (.error .endOfInput, r) ∧
       r.read_slice len = (.error .endOfInput, r) ∧
       r.read_array len = (.error .endOfInput, r) ∧
       (len = 1 → r.read_byte = (.error .endOfInput, r))) := by
  obtain ⟨hIdx, hLen⟩ := hWF
  constructor
  · intro hle
    have hil : r.index + len ≤ r.inner.length := by
      unfold remaining at hle; omega
    have hinc := increment_eq_of_le r len hil hLen
    have hhr := has_remaining_true r len hle
    have hslice : r.read_slice len =
        (.ok ((r.inner.drop r.index).take len), ⟨r.index + len, r.inner⟩) := by
      simp [read_slice, hhr, hinc]
    refine ⟨?_, ?_, ?_, ?_⟩
    · simp [read_bytes, hhr, hinc, consumed]
    · simpa [consumed] using hslice
    · rw [read_array_eq_read_slice]; simpa [consumed] using hslice
    · intro h1
      subst h1
      have hlt : r.index < r.inner.length := by unfold remaining at hle; omega
      refine ⟨?_, ?_⟩
      · have hinc1 := increment_eq_of_le r 1 (by omega) hLen
        simp [read_byte, has_remaining_true r 1 hle, hinc1, consumed]
      · simpa [consumed] using take_one_drop r.inner r.index hlt
  · intro hgt
    have hhr := has_remaining_false r len hgt
    refine ⟨?_, ?_, ?_, ?_⟩
    · simp [read_bytes, hhr]
    · simp [read_slice, hhr]
    · rw [read_array_eq_read_slice]; simp [read_slice, hhr]
    · intro h1
      subst h1
      simp [read_byte, has_remaining_false r 1 hgt]

/-- Witness for claim C1 at a concrete reader: a 3-byte source, a successful
read of 2 bytes and a failing read of 5 bytes. -/
theorem bounds_checked_reads_all_or_nothing_witness :
    (Reader.mk 0 [5,6,7]).read_bytes 2 = (.ok [5,6], Reader.mk 2 [5,6,7]) ∧
    (Reader.mk 0 [5,6,7]).read_bytes 5 = (.error .endOfInput, Reader.mk 0 [5,6,7]) := by
  have h := bounds_checked_reads_all_or_nothing (Reader.mk 0 [5,6,7]) 2 (by decide)
  have h5 := bounds_checked_reads_all_or_nothing (Reader.mk 0 [5,6,7]) 5 (by decide)
  exact ⟨(h.1 (by decide)).1, (h5.2 (by decide)).1⟩

/-- Claim C2 (refuting evaluation): the core-surface method `peek` is not
panic-free. With exactly one unread byte, `peek` indexes
`self.inner[self.index + 1]`, one past the end of the buffer, which is an
out-of-bounds slice access — a panic (modelled as `none`) — although one
byte remains and the claim requires a normal `Bool` return. -/
theorem peek_panics_with_one_byte_left :
    (Reader.new [42]).peek 42 = none ∧ (Reader.new [42]).remaining = 1 := by decide

/-- Claim C3 (refuting evaluation): `peek` compares the byte one past the
current position, not the byte at the current position. On the source
`[7, 8]` at position 0, the byte at the current position is `7`, so the
claim requires `peek 7 = true`; the code compares `inner[1] = 8` and
returns `false`. -/
theorem peek_compares_byte_after_position :
    (Reader.new [7,8]).peek 7 = some false ∧
    (Reader.new [7,8]).inner.get? (Reader.new [7,8]).consumed = some 7 := by decide

/-- Claim C4 (refuting evaluation): the position is not monotonically
non-decreasing. `increment` computes `self.index.add(amt)` with wrapping
`usize` addition before the `min` clamp, so after one byte is consumed,
`skip (2^64 - 1)` wraps the index from 1 to 0 and the position moves
backward (a debug build panics on the same input instead). -/
theorem skip_overflow_moves_position_backward :
    ((Reader.new [9,9]).skip 1).consumed = 1 ∧
    (((Reader.new [9,9]).skip 1).skip (USIZE - 1)).consumed = 0 := by decide

/-- Claim C5 (refuting evaluation): the `std::io::Read` bridge copies
`min(remaining, buf.len())` bytes (here 2: the buffer becomes `[1, 2]` and
the reader advances to position 2) but returns `Ok(0)` instead of the count
of bytes actually copied. -/
theorem io_read_returns_zero_count :
    (Reader.new [1,2,3]).io_read [0,0] = (0, Reader.mk 2 [1,2,3], [1,2]) ∧
    min (Reader.new [1,2,3]).remaining (List.length ([0,0] : List Nat)) = 2 := by decide

/-- Claim C6: `subreader len` fails with `EndOfInput` when `len = 0` (even
when bytes remain) or when `len > remaining()`, leaving the parent
unchanged; otherwise it succeeds, returning a new reader over exactly the
parent bytes at `[position, position+len)` with its own position 0, and
advances the parent position by `len`. -/
theorem subreader_spec (r : Reader) (len : Nat) (hWF : r.WF) :
    (len = 0 → r.subreader len = (.error .endOfInput, r)) ∧
    (r.remaining < len → r.subreader len = (.error .endOfInput, r)) ∧
    (0 < len → len ≤ r.remaining →
       r.subreader len =
         (.ok (Reader.new ((r.inner.drop r.consumed).take len)), ⟨r.consumed + len, r.inner⟩)) := by
  obtain ⟨hIdx, hLen⟩ := hWF
  refine ⟨?_, ?_, ?_⟩
  · intro h0
    subst h0
    simp [subreader]
  · intro hgt
    have hne : len ≠ 0 := by omega
    have hhr := has_remaining_false r len hgt
    simp [subreader, hne, read_bytes, hhr]
  · intro hpos hle
    have hne : len ≠ 0 := by omega
    have hil : r.index + len ≤ r.inner.length := by
      unfold remaining at hle; omega
    have hinc := increment_eq_of_le r len hil hLen
    have hhr := has_remaining_true r len hle
    simp [subreader, hne, read_bytes, hhr, hinc, consumed]

/-- Witness for claim C6 at a concrete reader: a successful 2-byte
subreader and the failing `subreader 0` while 3 bytes remain. -/
theorem subreader_spec_witness :
    (Reader.mk 0 [10,20,30]).subreader 2 =
      (.ok (Reader.mk 0 [10,20]), Reader.mk 2 [10,20,30]) ∧
    (Reader.mk 0 [10,20,30]).subreader 0 =
      (.error .endOfInput, Reader.mk 0 [10,20,30]) := by
  have h := subreader_spec (Reader.mk 0 [10,20,30]) 2 (by decide)
  have h0 := subreader_spec (Reader.mk 0 [10,20,30]) 0 (by decide)
  exact ⟨h.2.2 (by decide) (by decide), h0.1 rfl⟩

/-- Claim C7 (refuting evaluation): `skip n` does not always set the
position to `min(position + n, source.length())`. After `skip 1` on a
3-byte source the position is 1; the claimed contract gives
`min(1 + (2^64 - 1), 3) = 3`, but the wrapping `usize` addition inside
`increment` yields position 0 (a debug build panics instead, so `skip` is
not failure-free either). -/
theorem skip_overflow_not_clamped_to_end :
    (((Reader.new [4,5,6]).skip 1).skip (USIZE - 1)).consumed = 0 ∧
    min (((Reader.new [4,5,6]).skip 1).consumed + (USIZE - 1))
      (Reader.new [4,5,6]).inner.length = 3 := by decide

/-- Claim C8: each integer convenience method of `src/ints.rs` produces
exactly the same result (value, error, and final reader state) as the
corresponding `Decode` implementation (`decode` for `u8`/`i8`) or the
big-endian branch `decode_be` of `DecodeEndian` (widths 2, 4, 8, 16) of
`src/decode.rs`. -/
theorem convenience_readers_match_decode_be (r : Reader) :
    r.read_u8 = Decode.decode_u8 r ∧
    r.read_i8 = Decode.decode_i8 r ∧
    r.read_u16 = Decode.decode_be_u16 r ∧
    r.read_u32 = Decode.decode_be_u32 r ∧
    r.read_u64 = Decode.decode_be_u64 r ∧
    r.read_u128 = Decode.decode_be_u128 r ∧
    r.read_i16 = Decode.decode_be_i16 r ∧
    r.read_i32 = Decode.decode_be_i32 r ∧
    r.read_i64 = Decode.decode_be_i64 r ∧
    r.read_i128 = Decode.decode_be_i128 r :=
  ⟨rfl, rfl, rfl, rfl, rfl, rfl, rfl, rfl, rfl, rfl⟩

/-- Claim C9: `read_to_end` returns the canonical empty instance — a
zero-length result that does not retain the original storage handle — when
the position equals the source length, and otherwise returns exactly the
bytes of the source from the position to the end (a view retaining the
storage, of length `remaining()`). -/
theorem read_to_end_spec (r : Reader) :
    (r.index = r.inner.length →
       r.read_to_end = { data := [], retainsSource := false }) ∧
    (r.index ≠ r.inner.length →
       r.read_to_end = { data := r.inner.drop r.index, retainsSource := true } ∧
       r.read_to_end.data.length = r.remaining) := by
  refine ⟨?_, ?_⟩
  · intro h
    simp [read_to_end, h]
  · intro h
    refine ⟨by simp [read_to_end, h], ?_⟩
    simp [read_to_end, h, remaining]

/-- Witness for claim C9 at concrete readers: one fully consumed (canonical
empty result, storage not retained) and one with a byte left. -/
theorem read_to_end_spec_witness :
    (Reader.mk 2 [1,2]).read_to_end = { data := [], retainsSource := false } ∧
    (Reader.mk 1 [1,2]).read_to_end = { data := [2], retainsSource := true } := by
  have ha := (read_to_end_spec (Reader.mk 2 [1,2])).1 (by decide)
  have hb := ((read_to_end_spec (Reader.mk 1 [1,2])).2 (by decide)).1
  exact ⟨ha, hb⟩

/-- Claim C10: zero-length reads never fail. For every well-formed reader,
including a fully consumed one, `read_bytes 0`, `read_slice 0` and
`read_array 0` succeed with an empty result and leave the reader unchanged
— in contrast with the `subreader 0` policy, which fails with
`EndOfInput`. -/
theorem zero_length_reads (r : Reader) (hWF : r.WF) :
    r.read_bytes 0 = (.ok [], r) ∧
    r.read_slice 0 = (.ok [], r) ∧
    r.read_array 0 = (.ok [], r) ∧
    r.subreader 0 = (.error .endOfInput, r) := by
  obtain ⟨hIdx, hLen⟩ := hWF
  have hinc := increment_eq_of_le r 0 (by omega) hLen
  have h0 : r.increment 0 = r := by rw [hinc]; rfl
  have hhr : r.has_remaining 0 = true := has_remaining_true r 0 (Nat.zero_le _)
  refine ⟨?_, ?_, ?_, ?_⟩
  · simp [read_bytes, hhr, h0]
  · simp [read_slice, hhr, h0]
  · rw [read_array_eq_read_slice]; simp [read_slice, hhr, h0]
  · simp [subreader]

/-- Witness for claim C10 at a concrete, fully consumed reader. -/
theorem zero_length_reads_witness :
    (Reader.mk 3 [7,8,9]).read_bytes 0 = (.ok [], Reader.mk 3 [7,8,9]) ∧
    (Reader.mk 3 [7,8,9]).read_slice 0 = (.ok [], Reader.mk 3 [7,8,9]) ∧
    (Reader.mk 3 [7,8,9]).read_array 0 = (.ok [], Reader.mk 3 [7,8,9]) ∧
    (Reader.mk 3 [7,8,9]).subreader 0 = (.error .endOfInput, Reader.mk 3 [7,8,9]) :=
  zero_length_reads (Reader.mk 3 [7,8,9]) (by decide)

end Reader

end Unbytes
